import Mathlib

/-!
# Singleton strategies and the duck strategy pattern

A shallow embedding of `src/单例模式.cpp` (four singleton classes) and of
`src/策略模式.cpp` (a duck with a replaceable fly behaviour).

Conventions of the embedding.

* A pointer is an `Option Addr`; `none` is `nullptr`.
* The static data of one singleton class is a `Store`: the pointer slot
  (`m_SingleInstance` / `g_pSingleton`), the heap objects of the class that
  are constructed and not yet destroyed, and the lines written to `std::cout`
  by the constructor and the destructor.
* `new (std::nothrow) T` asks the C++ runtime for memory.  The runtime is not
  part of the repository, so its answer is an input of the model: `none` when
  the allocation fails, `some a` when it yields the address `a`.
* `delete p` on an address that is not a live object is a fault (`none`).
-/

namespace Singleton

/-- An object address. -/
abbrev Addr := Nat

/-- The line printed by every constructor of `单例模式.cpp`. -/
def ctorMsg : String := "执行构造函数"

/-- The line printed by every destructor of `单例模式.cpp`. -/
def dtorMsg : String := "执行析构函数"

/-- The static state of one singleton class together with its part of the heap
and of the console. -/
structure Store where
  /-- The static pointer member (`m_SingleInstance`, `g_pSingleton`). -/
  slot : Option Addr
  /-- Addresses of the instances constructed and not yet destroyed. -/
  live : List Addr
  /-- Lines written to `std::cout`, oldest first. -/
  out : List String
deriving DecidableEq

/-- Static initialisation `= nullptr` with nothing allocated and nothing printed. -/
def Store.empty : Store := { slot := none, live := [], out := [] }

/-- Number of constructor executions recorded on the console. -/
def Store.ctorRuns (s : Store) : Nat := s.out.count ctorMsg

/-- Number of destructor executions recorded on the console. -/
def Store.dtorRuns (s : Store) : Nat := s.out.count dtorMsg

/-- Number of live instances. -/
def Store.instances (s : Store) : Nat := s.live.length

/-- The slot does not dangle: when it is non-null it points to a live instance. -/
def Store.wf (s : Store) : Bool :=
  match s.slot with
  | none => true
  | some p => decide (p ∈ s.live)

/-- The heap of the class holds exactly the instance the slot points to. -/
def Store.tight (s : Store) : Prop := s.live = s.slot.toList

/-- The answer `r` of the allocator is an address that is not in use. -/
def Store.fresh (s : Store) (r : Option Addr) : Bool :=
  match r with
  | none => true
  | some a => decide (a ∉ s.live)

/-- The expression `new (std::nothrow) T` where the allocator answers `r`: on failure the
result is `nullptr` and the constructor does not run; on success the constructor runs
(prints its line) on the new object. -/
def newNothrow (r : Option Addr) (s : Store) : Option Addr × Store :=
  match r with
  | none => (none, s)
  | some a => (some a, { s with live := a :: s.live, out := s.out ++ [ctorMsg] })

/-- The statement `delete p` for a non-null `p`: the destructor runs (prints its line) and
the object is released.  Deleting an address that is not live is a fault. -/
def deleteObj (p : Addr) (s : Store) : Option Store :=
  if p ∈ s.live then
    some { s with live := s.live.erase p, out := s.out ++ [dtorMsg] }
  else none

/-! ## `NoLockSingleInstance` (lines 33-48) -/

/-- `NoLockSingleInstance::GetInstance`, the allocator answering `r` if asked. -/
def NoLockSingleInstance.GetInstance (r : Option Addr) (s : Store) : Option Addr × Store :=
  let s1 :=
    if s.slot = none then
      let n := newNothrow r s
      { n.2 with slot := n.1 }
    else s
  (s1.slot, s1)

/-- `NoLockSingleInstance::deleteInstance`. -/
def NoLockSingleInstance.deleteInstance (s : Store) : Option Store :=
  match s.slot with
  | some p => (deleteObj p s).map fun s1 => { s1 with slot := none }
  | none => some s

/-! ## `AddLockSingleInstance` (lines 131-152), one call run to completion

The `std::unique_lock` is taken and released inside the call, so between two calls
of a sequential execution the mutex is free; the mutex itself is modelled in the
interleaving semantics further down. -/

/-- `AddLockSingleInstance::GetInstance`: both tests of the double-checked lock.  The
function returns a reference to the slot; the value is what the caller reads through it. -/
def AddLockSingleInstance.GetInstance (r : Option Addr) (s : Store) : Option Addr × Store :=
  let s1 :=
    if s.slot = none then
      -- lock held from here to the end of the block
      if s.slot = none then
        let n := newNothrow r s
        { n.2 with slot := n.1 }
      else s
    else s
  (s1.slot, s1)

/-- `AddLockSingleInstance::deleteInstance`. -/
def AddLockSingleInstance.deleteInstance (s : Store) : Option Store :=
  -- lock held for the whole body
  match s.slot with
  | some p => (deleteObj p s).map fun s1 => { s1 with slot := none }
  | none => some s

/-! ## `InitSingleInstance` (lines 229-242) -/

/-- The initialiser `g_pSingleton = new (std::nothrow) InitSingleInstance`, run once before
`main`; `r` is the allocator's answer. -/
def InitSingleInstance.g_pSingleton (r : Option Addr) : Store :=
  let n := newNothrow r Store.empty
  { n.2 with slot := n.1 }

/-- `InitSingleInstance::GetInstance`. -/
def InitSingleInstance.GetInstance (s : Store) : Option Addr × Store :=
  (s.slot, s)

/-- `InitSingleInstance::deleteInstance`. -/
def InitSingleInstance.deleteInstance (s : Store) : Option Store :=
  match s.slot with
  | some p => (deleteObj p s).map fun s1 => { s1 with slot := none }
  | none => some s

/-! ## `StaticSingleInstance` (lines 184-199) -/

/-- The function-local `static StaticSingleInstance signal`: whether it has been
initialised, and the console. -/
structure StaticStore where
  /-- The initialisation guard of the local static. -/
  initialised : Bool
  /-- Lines written to `std::cout`, oldest first. -/
  out : List String
deriving DecidableEq

/-- Before the first call. -/
def StaticStore.empty : StaticStore := { initialised := false, out := [] }

/-- `StaticSingleInstance::GetInstance`; `signal` is the address of the local static, fixed
by the linker.  The first call runs the constructor; every call returns `&signal`. -/
def StaticSingleInstance.GetInstance (signal : Addr) (s : StaticStore) : Addr × StaticStore :=
  let s1 :=
    if s.initialised then s
    else { initialised := true, out := s.out ++ [ctorMsg] }
  (signal, s1)

/-- The results and the final state of `n` successive calls of
`StaticSingleInstance::GetInstance`. -/
def StaticSingleInstance.calls (signal : Addr) : Nat → StaticStore → List Addr × StaticStore
  | 0, s => ([], s)
  | n + 1, s =>
    let c := StaticSingleInstance.GetInstance signal s
    let rest := StaticSingleInstance.calls signal n c.2
    (c.1 :: rest.1, rest.2)

/-! ## The three strategies with a pointer slot, uniformly -/

/-- The classes with a pointer slot. -/
inductive Strategy where
  | noLock
  | addLock
  | init
deriving DecidableEq

/-- A call made by a client; `get r` carries the allocator's answer in case the call
allocates. -/
inductive Call where
  | get (r : Option Addr)
  | del
deriving DecidableEq

/-- The state before `main`; `r0` is the allocator's answer to the eager initialiser. -/
def Strategy.initial : Strategy → Option Addr → Store
  | .noLock, _ => Store.empty
  | .addLock, _ => Store.empty
  | .init, r0 => InitSingleInstance.g_pSingleton r0

/-- `GetInstance` of the strategy. -/
def Strategy.GetInstance : Strategy → Option Addr → Store → Option Addr × Store
  | .noLock, r, s => NoLockSingleInstance.GetInstance r s
  | .addLock, r, s => AddLockSingleInstance.GetInstance r s
  | .init, _, s => InitSingleInstance.GetInstance s

/-- `deleteInstance` of the strategy. -/
def Strategy.deleteInstance : Strategy → Store → Option Store
  | .noLock, s => NoLockSingleInstance.deleteInstance s
  | .addLock, s => AddLockSingleInstance.deleteInstance s
  | .init, s => InitSingleInstance.deleteInstance s

/-- One client call. -/
def Strategy.exec (σ : Strategy) : Call → Store → Option Store
  | .get r, s => some (σ.GetInstance r s).2
  | .del, s => σ.deleteInstance s

/-- A sequence of client calls, each run to completion before the next. -/
def Strategy.run (σ : Strategy) : List Call → Store → Option Store
  | [], s => some s
  | c :: cs, s => (σ.exec c s).bind (σ.run cs)

/-- Successive `GetInstance` calls, one per allocator answer of the list: the handles
returned and the final state. -/
def Strategy.gets (σ : Strategy) : List (Option Addr) → Store → List (Option Addr) × Store
  | [], s => ([], s)
  | r :: rs, s =>
    let c := σ.GetInstance r s
    let rest := σ.gets rs c.2
    (c.1 :: rest.1, rest.2)

/-- The lazy strategies construct inside `GetInstance`. -/
def Strategy.isLazy : Strategy → Bool
  | .noLock => true
  | .addLock => true
  | .init => false

/-! ## Interleaving semantics

Threads run the statements of a member function one at a time; a schedule says which
thread takes the next step.  A step of a thread that does not exist, has finished, or
waits for the mutex leaves the configuration as it is. -/

/-- Shared memory and the program counters of the threads. -/
structure Config (Pc : Type) where
  /-- The static pointer, the heap and the console. -/
  store : Store
  /-- Whether `m_Mutex` is held. -/
  locked : Bool
  /-- The program counter of every thread. -/
  threads : List Pc

/-- Thread `i` moves to `pc`. -/
def Config.goto {Pc : Type} (c : Config Pc) (i : Nat) (pc : Pc) : Config Pc :=
  { c with threads := c.threads.set i pc }

/-- Program points of `AddLockSingleInstance::GetInstance`. -/
inductive GetPc where
  /-- Line 135, the unguarded test. -/
  | test1
  /-- Line 136, waiting for the mutex. -/
  | acquire
  /-- Line 137, the test under the lock. -/
  | test2
  /-- Line 138, the allocation of `new (std::nothrow)`. -/
  | alloc
  /-- Line 138, the constructor on the memory at `a`. -/
  | construct (a : Addr)
  /-- Line 138, the store of `p` to `m_SingleInstance`. -/
  | assign (p : Option Addr)
  /-- Line 140, the end of the scope of `lock`. -/
  | release
  /-- Line 142, the slot is read through the returned reference. -/
  | ret
  /-- The caller has received `r`. -/
  | done (r : Option Addr)
deriving DecidableEq

/-- Program points of `deleteInstance` (`AddLockSingleInstance`, lines 145-152, and
`InitSingleInstance`, lines 236-242, which has neither `acquire` nor `release`). -/
inductive DelPc where
  /-- Line 147, waiting for the mutex. -/
  | acquire
  /-- The test `if (slot)`. -/
  | test
  /-- The destructor call of `delete slot`. -/
  | destroy
  /-- The deallocation of `delete slot`, of the address `p` the destructor ran on. -/
  | free (p : Addr)
  /-- The store `slot = nullptr`. -/
  | reset
  /-- The end of the scope of `lock`. -/
  | release
  /-- The call has returned. -/
  | done
deriving DecidableEq

/-- One step of thread `i` inside `AddLockSingleInstance::GetInstance`; `r` is the
allocator's answer, used at the allocation only. -/
def AddLockSingleInstance.getStep (i : Nat) (r : Option Addr) (c : Config GetPc) :
    Config GetPc :=
  match c.threads[i]? with
  | none => c
  | some .test1 =>
    if c.store.slot = none then c.goto i .acquire else c.goto i .ret
  | some .acquire =>
    if c.locked then c else { c with locked := true }.goto i .test2
  | some .test2 =>
    if c.store.slot = none then c.goto i .alloc else c.goto i .release
  | some .alloc =>
    match r with
    | none => c.goto i (.assign none)
    | some a => c.goto i (.construct a)
  | some (.construct a) =>
    { c with store := { c.store with live := a :: c.store.live,
                                     out := c.store.out ++ [ctorMsg] } }.goto i
      (.assign (some a))
  | some (.assign p) =>
    { c with store := { c.store with slot := p } }.goto i .release
  | some .release =>
    { c with locked := false }.goto i .ret
  | some .ret => c.goto i (.done c.store.slot)
  | some (.done _) => c

/-- A schedule of `GetInstance` steps: the thread that moves and the allocator's answer. -/
def AddLockSingleInstance.getRun : List (Nat × Option Addr) → Config GetPc → Config GetPc
  | [], c => c
  | e :: es, c => AddLockSingleInstance.getRun es (AddLockSingleInstance.getStep e.1 e.2 c)

/-- The configuration in which `n` threads are about to enter
`AddLockSingleInstance::GetInstance` and nothing has been constructed. -/
def AddLockSingleInstance.getInit (n : Nat) : Config GetPc :=
  { store := Store.empty, locked := false, threads := List.replicate n .test1 }

/-- One step of thread `i` inside `AddLockSingleInstance::deleteInstance`; `none` is the
fault of releasing an address that is not live. -/
def AddLockSingleInstance.delStep (i : Nat) (c : Config DelPc) : Option (Config DelPc) :=
  match c.threads[i]? with
  | none => some c
  | some .acquire =>
    if c.locked then some c else some ({ c with locked := true }.goto i .test)
  | some .test =>
    if c.store.slot = none then some (c.goto i .release) else some (c.goto i .destroy)
  | some .destroy =>
    match c.store.slot with
    | none => some (c.goto i .reset)
    | some p =>
      some ({ c with store := { c.store with out := c.store.out ++ [dtorMsg] } }.goto i
        (.free p))
  | some (.free p) =>
    if p ∈ c.store.live then
      some ({ c with store := { c.store with live := c.store.live.erase p } }.goto i .reset)
    else none
  | some .reset =>
    some ({ c with store := { c.store with slot := none } }.goto i .release)
  | some .release =>
    some ({ c with locked := false }.goto i .done)
  | some .done => some c

/-- One step of thread `i` inside `InitSingleInstance::deleteInstance`: the same
statements as in `AddLockSingleInstance`, without a mutex. -/
def InitSingleInstance.delStep (i : Nat) (c : Config DelPc) : Option (Config DelPc) :=
  match c.threads[i]? with
  | none => some c
  | some .test =>
    if c.store.slot = none then some (c.goto i .done) else some (c.goto i .destroy)
  | some .destroy =>
    match c.store.slot with
    | none => some (c.goto i .reset)
    | some p =>
      some ({ c with store := { c.store with out := c.store.out ++ [dtorMsg] } }.goto i
        (.free p))
  | some (.free p) =>
    if p ∈ c.store.live then
      some ({ c with store := { c.store with live := c.store.live.erase p } }.goto i .reset)
    else none
  | some .reset =>
    some ({ c with store := { c.store with slot := none } }.goto i .done)
  | some .acquire => some c
  | some .release => some c
  | some .done => some c

/-- A schedule of steps: the threads that move, in order. -/
def runSchedule {Pc : Type} (step : Nat → Config Pc → Option (Config Pc)) :
    List Nat → Config Pc → Option (Config Pc)
  | [], c => some c
  | i :: is, c => (step i c).bind (runSchedule step is)

/-- The configuration in which `n` threads are about to enter
`AddLockSingleInstance::deleteInstance` in the state `s`. -/
def AddLockSingleInstance.delInit (s : Store) (n : Nat) : Config DelPc :=
  { store := s, locked := false, threads := List.replicate n .acquire }

/-- The configuration in which `n` threads are about to enter
`InitSingleInstance::deleteInstance` in the state `s`. -/
def InitSingleInstance.delInit (s : Store) (n : Nat) : Config DelPc :=
  { store := s, locked := false, threads := List.replicate n .test }

/-! ## Invariants of the interleaving semantics -/

/-- The program points of `GetInstance` at which the thread holds the mutex. -/
def GetPc.holds : GetPc → Bool
  | .test2 => true
  | .alloc => true
  | .construct _ => true
  | .assign _ => true
  | .release => true
  | _ => false

/-- An upper bound on the number of steps a thread has left in `GetInstance`. -/
def GetPc.left : GetPc → Nat
  | .test1 => 8
  | .acquire => 7
  | .test2 => 6
  | .alloc => 5
  | .construct _ => 4
  | .assign _ => 3
  | .release => 2
  | .ret => 1
  | .done _ => 0

/-- What a thread at a program point of `GetInstance` knows about the shared state, as
long as every allocation succeeds and nobody tears the instance down. -/
def GetPc.knows (s : Store) : GetPc → Prop
  | .alloc => s.slot = none ∧ s.ctorRuns = 0
  | .construct _ => s.slot = none ∧ s.ctorRuns = 0
  | .assign p => s.slot = none ∧ p ≠ none ∧ s.ctorRuns = 1
  | .release => s.slot ≠ none
  | .ret => s.slot ≠ none
  | .done r => r = s.slot ∧ s.slot ≠ none
  | _ => True

/-- The invariant of concurrent `AddLockSingleInstance::GetInstance` calls. -/
structure GetInv (c : Config GetPc) : Prop where
  /-- At most one thread holds the mutex. -/
  excl : ∀ (i j : Nat) (p q : GetPc), c.threads[i]? = some p → c.threads[j]? = some q →
    p.holds = true → q.holds = true → i = j
  /-- When the mutex is free no thread is in the guarded block. -/
  free : c.locked = false → ∀ (i : Nat) (p : GetPc), c.threads[i]? = some p → p.holds = false
  /-- When the mutex is held some thread is in the guarded block. -/
  held : c.locked = true → ∃ (i : Nat) (p : GetPc), c.threads[i]? = some p ∧ p.holds = true
  /-- Every thread knows what its program point says. -/
  knows : ∀ (i : Nat) (p : GetPc), c.threads[i]? = some p → p.knows c.store
  /-- A filled slot was constructed once. -/
  once : c.store.slot ≠ none → c.store.ctorRuns = 1
  /-- With an empty slot and no store pending nothing was constructed. -/
  zero : c.store.slot = none → (∀ (i : Nat) (p : Option Addr), c.threads[i]? ≠ some (.assign p)) →
    c.store.ctorRuns = 0

/-- The total number of steps left, at most. -/
def getLeft (c : Config GetPc) : Nat := (c.threads.map GetPc.left).sum

/-- The program points of `deleteInstance` at which the thread holds the mutex. -/
def DelPc.holds : DelPc → Bool
  | .acquire => false
  | .done => false
  | _ => true

/-- What a thread at a program point of `AddLockSingleInstance::deleteInstance` knows about
the shared state; `d0` is the number of destructor runs before the calls began. -/
def DelPc.knows (d0 : Nat) (s : Store) : DelPc → Prop
  | .destroy => s.slot ≠ none ∧ s.wf = true ∧ s.dtorRuns = d0
  | .free p => s.slot = some p ∧ p ∈ s.live ∧ s.dtorRuns = d0 + 1
  | .reset => s.dtorRuns = d0 + 1
  | _ => True

/-- The invariant of concurrent `AddLockSingleInstance::deleteInstance` calls. -/
structure DelInv (d0 : Nat) (c : Config DelPc) : Prop where
  /-- At most one thread holds the mutex. -/
  excl : ∀ (i j : Nat) (p q : DelPc), c.threads[i]? = some p → c.threads[j]? = some q →
    p.holds = true → q.holds = true → i = j
  /-- When the mutex is free no thread is in the guarded block. -/
  free : c.locked = false → ∀ (i : Nat) (p : DelPc), c.threads[i]? = some p → p.holds = false
  /-- Every thread knows what its program point says. -/
  knows : ∀ (i : Nat) (p : DelPc), c.threads[i]? = some p → p.knows d0 c.store
  /-- The destructor has run at most once more. -/
  range : c.store.dtorRuns = d0 ∨ c.store.dtorRuns = d0 + 1
  /-- Before the destructor runs the slot does not dangle. -/
  sound : c.store.dtorRuns = d0 → c.store.wf = true
  /-- After the destructor has run the slot is reset, or the thread that ran it is on
  its way to reset it. -/
  spent : c.store.dtorRuns = d0 + 1 → c.store.slot = none ∨
    ∃ (i : Nat) (p : DelPc), c.threads[i]? = some p ∧ ((∃ a, p = .free a) ∨ p = .reset)

/-- A schedule that lets two `deleteInstance` calls both pass the test before either
resets the slot. -/
def raceSchedule : List Nat := [0, 1, 0, 1]

/-- Two `AddLockSingleInstance::deleteInstance` calls taking turns: thread 1 tries to enter
after every step of thread 0 and gets the mutex only when thread 0 has released it. -/
def lockedSchedule : List Nat := [0, 1, 0, 1, 0, 1, 0, 1, 0, 1, 0, 1, 1, 1]

/-- An interleaving of two `GetInstance` calls: both pass the unguarded test, thread 0 wins
the mutex and constructs, thread 1 waits, then finds the slot filled. -/
def demoSchedule : List (Nat × Option Addr) :=
  [(0, some 5), (1, some 6), (0, some 5), (1, some 6), (0, some 5), (0, some 5), (0, some 5),
   (0, some 5), (0, some 5), (1, some 6), (1, some 6), (1, some 6), (0, some 5), (1, some 6)]

end Singleton

/-! # The duck of `策略模式.cpp` -/

namespace StrategyPattern

open Singleton (Addr)

/-- The interface `FlyBehavior`: an object is its implementation of the virtual `fly()`,
which acts on the console. -/
structure FlyBehavior where
  /-- The virtual member `fly()`. -/
  fly : List String → List String

/-- The class `FlyWithWings`. -/
def FlyWithWings : FlyBehavior := { fly := fun out => out ++ ["I am flying !"] }

/-- The class `FlyNoWay`. -/
def FlyNoWay : FlyBehavior := { fly := fun out => out ++ ["I cannot fly !"] }

/-- The class `FlyWithRocket`. -/
def FlyWithRocket : FlyBehavior := { fly := fun out => out ++ ["I am flying with a rocket !"] }

/-- The heap of behaviour objects and the console. -/
structure World where
  /-- The live behaviour objects by address. -/
  heap : Addr → Option FlyBehavior
  /-- Lines written to `std::cout`, oldest first. -/
  out : List String

/-- Nothing allocated, nothing printed. -/
def World.empty : World := { heap := fun _ => none, out := [] }

/-- The expression `new T` yielding the address `a`. -/
def World.alloc (a : Addr) (b : FlyBehavior) (w : World) : World :=
  { w with heap := Function.update w.heap a (some b) }

/-- The class `Duck`: the raw pointer owned by its `std::unique_ptr<FlyBehavior> uPtr`. -/
structure Duck where
  /-- The pointer held by `uPtr`. -/
  uPtr : Option Addr
deriving DecidableEq

/-- The constructor `Duck::Duck(FlyBehavior *fb) : uPtr(fb)`. -/
def Duck.construct (fb : Option Addr) : Duck := { uPtr := fb }

/-- `Duck::SetFlyBehavior`: the move assignment stores `fb` and then deletes the object
owned before, if any; deleting an address that is not live is a fault. -/
def Duck.SetFlyBehavior (fb : Option Addr) (d : Duck) (w : World) : Option (Duck × World) :=
  let old := d.uPtr
  let d1 : Duck := { uPtr := fb }
  match old with
  | none => some (d1, w)
  | some q =>
    if (w.heap q).isSome then some (d1, { w with heap := Function.update w.heap q none })
    else none

/-- `Duck::PerformFly`: the virtual call `uPtr->fly()`; a null pointer or a pointer to an
object that is not live is a fault. -/
def Duck.PerformFly (d : Duck) (w : World) : Option World :=
  match d.uPtr with
  | none => none
  | some p =>
    match w.heap p with
    | none => none
    | some b => some { w with out := b.fly w.out }

/-- Successive `SetFlyBehavior` calls. -/
def Duck.setAll : List (Option Addr) → Duck → World → Option (Duck × World)
  | [], d, w => some (d, w)
  | fb :: fbs, d, w => (Duck.SetFlyBehavior fb d w).bind fun dw => Duck.setAll fbs dw.1 dw.2

/-- The pointer passed last: the last of `bs`, or `b0` when there is none. -/
def lastSet (b0 : Addr) : List Addr → Addr
  | [] => b0
  | b :: bs => lastSet b bs

/-- The demo `main`; `a1`, `a2`, `a3` are the addresses the three `new` expressions yield.
The result is the console at the end. -/
def main (a1 a2 a3 : Addr) : Option (List String) :=
  let w0 := World.empty
  let w1 := w0.alloc a1 FlyWithWings
  let w2 := w1.alloc a2 FlyNoWay
  let w3 := w2.alloc a3 FlyWithRocket
  let pDuck := Duck.construct (some a1)
  (Duck.PerformFly pDuck w3).bind fun w4 =>
  (Duck.SetFlyBehavior (some a2) pDuck w4).bind fun dw5 =>
  (Duck.PerformFly dw5.1 dw5.2).bind fun w6 =>
  (Duck.SetFlyBehavior (some a3) dw5.1 w6).bind fun dw7 =>
  (Duck.PerformFly dw7.1 dw7.2).map fun w8 => w8.out

end StrategyPattern

/-! # Sequential executions of the singleton strategies -/

namespace Singleton

theorem ctorMsg_ne_dtorMsg : ctorMsg ≠ dtorMsg := by decide

theorem Store.tight_initial (σ : Strategy) (r0 : Option Addr) : (σ.initial r0).tight := by
  cases σ <;> cases r0 <;>
    simp [Strategy.initial, Store.tight, Store.empty, InitSingleInstance.g_pSingleton, newNothrow]

theorem Store.tight_get (σ : Strategy) (r : Option Addr) (s : Store) (h : s.tight) :
    (σ.GetInstance r s).2.tight := by
  obtain ⟨slot, live, out⟩ := s
  cases σ <;> cases r <;> cases slot <;>
    simp_all [Strategy.GetInstance, Store.tight, NoLockSingleInstance.GetInstance,
      AddLockSingleInstance.GetInstance, InitSingleInstance.GetInstance, newNothrow]

theorem Store.tight_del (σ : Strategy) (s : Store) (h : s.tight) :
    ∃ s1, σ.deleteInstance s = some s1 ∧ s1.tight ∧ s1.slot = none := by
  obtain ⟨slot, live, out⟩ := s
  cases σ <;> cases slot <;>
    simp_all [Strategy.deleteInstance, Store.tight, NoLockSingleInstance.deleteInstance,
      AddLockSingleInstance.deleteInstance, InitSingleInstance.deleteInstance, deleteObj]

theorem Store.tight_exec (σ : Strategy) (c : Call) (s : Store) (h : s.tight) :
    ∃ s1, σ.exec c s = some s1 ∧ s1.tight := by
  cases c with
  | get r => exact ⟨_, rfl, Store.tight_get σ r s h⟩
  | del =>
    obtain ⟨s1, h1, h2, _⟩ := Store.tight_del σ s h
    exact ⟨s1, h1, h2⟩

theorem Store.tight_run (σ : Strategy) (calls : List Call) :
    ∀ s : Store, s.tight → ∃ s1, σ.run calls s = some s1 ∧ s1.tight := by
  induction calls with
  | nil => intro s h; exact ⟨s, rfl, h⟩
  | cons c cs ih =>
    intro s h
    obtain ⟨s1, h1, h2⟩ := Store.tight_exec σ c s h
    obtain ⟨s2, h3, h4⟩ := ih s1 h2
    exact ⟨s2, by simp [Strategy.run, h1, h3], h4⟩

/-- C2: for NoLockSingleInstance, AddLockSingleInstance and InitSingleInstance, every finite
sequence of sequentially executed GetInstance() and deleteInstance() calls from the initial
state runs without a fault and ends in a state with 0 or 1 live instances, in which the slot
is non-null exactly when there is 1 live instance. -/
theorem at_most_one_live_instance (σ : Strategy) (r0 : Option Addr) (calls : List Call) :
    ∃ s, σ.run calls (σ.initial r0) = some s ∧
      (s.instances = 0 ∨ s.instances = 1) ∧ (s.slot ≠ none ↔ s.instances = 1) := by
  obtain ⟨s, h1, h2⟩ := Store.tight_run σ calls _ (Store.tight_initial σ r0)
  refine ⟨s, h1, ?_⟩
  obtain ⟨slot, live, out⟩ := s
  cases slot <;> simp_all [Store.tight, Store.instances]

theorem del_of_wf (σ : Strategy) (s : Store) (h : s.wf = true) :
    ∃ s1, σ.deleteInstance s = some s1 ∧ s1.slot = none ∧ s1.wf = true ∧
      s1.ctorRuns = s.ctorRuns ∧
      s1.dtorRuns = s.dtorRuns + (if s.slot = none then 0 else 1) := by
  obtain ⟨slot, live, out⟩ := s
  cases σ <;> cases slot <;>
    simp_all [Strategy.deleteInstance, Store.wf, NoLockSingleInstance.deleteInstance,
      AddLockSingleInstance.deleteInstance, InitSingleInstance.deleteInstance, deleteObj,
      Store.ctorRuns, Store.dtorRuns, List.count_append, ctorMsg_ne_dtorMsg]

theorem del_of_slot_none (σ : Strategy) (s : Store) (h : s.slot = none) :
    σ.deleteInstance s = some s := by
  obtain ⟨slot, live, out⟩ := s
  cases σ <;>
    simp_all [Strategy.deleteInstance, NoLockSingleInstance.deleteInstance,
      AddLockSingleInstance.deleteInstance, InitSingleInstance.deleteInstance]

/-- C3: for NoLockSingleInstance, AddLockSingleInstance and InitSingleInstance, in every
state whose slot does not dangle, deleteInstance() called twice in sequence does not fault,
the second call leaves the state of the first (slot empty) unchanged, and the destructor
runs at most once across the two calls. -/
theorem double_teardown_is_noop (σ : Strategy) (s : Store) (h : s.wf = true) :
    ∃ s1, σ.deleteInstance s = some s1 ∧ σ.deleteInstance s1 = some s1 ∧
      s1.slot = none ∧ s1.dtorRuns ≤ s.dtorRuns + 1 := by
  obtain ⟨s1, h1, h2, _, _, h5⟩ := del_of_wf σ s h
  refine ⟨s1, h1, del_of_slot_none σ s1 h2, h2, ?_⟩
  rw [h5]; split <;> omega

theorem double_teardown_is_noop_witness :
    (Store.mk (some 7) [7] [ctorMsg]).wf = true ∧
    ∃ s1, Strategy.addLock.deleteInstance (Store.mk (some 7) [7] [ctorMsg]) = some s1 ∧
      Strategy.addLock.deleteInstance s1 = some s1 ∧
      s1.slot = none ∧ s1.dtorRuns ≤ (Store.mk (some 7) [7] [ctorMsg]).dtorRuns + 1 :=
  ⟨by decide, double_teardown_is_noop Strategy.addLock (Store.mk (some 7) [7] [ctorMsg])
    (by decide)⟩

/-- After a teardown the allocator may hand the released address out again: the second
instance of AddLockSingleInstance then has the identity of the first; and it may fail, in
which case GetInstance() constructs nothing. -/
theorem reacquire_same_identity :
    (Store.mk (some 1) [1] [ctorMsg]).slot = some 1 ∧
    AddLockSingleInstance.deleteInstance (Store.mk (some 1) [1] [ctorMsg])
      = some (Store.mk none [] [ctorMsg, dtorMsg]) ∧
    (Store.mk none [] [ctorMsg, dtorMsg]).fresh (some 1) = true ∧
    AddLockSingleInstance.GetInstance (some 1) (Store.mk none [] [ctorMsg, dtorMsg])
      = (some 1, Store.mk (some 1) [1] [ctorMsg, dtorMsg, ctorMsg]) ∧
    AddLockSingleInstance.GetInstance none (Store.mk none [] [ctorMsg, dtorMsg])
      = (none, Store.mk none [] [ctorMsg, dtorMsg]) := by
  decide

/-- C4 (amended): for AddLockSingleInstance, in every state whose slot points to a live
instance p, deleteInstance() succeeds, runs the destructor once, releases p (the heap loses
one entry p, and is empty if p was the only instance) and empties the slot.  A following
GetInstance() returns exactly what the allocator answers: on the address a it constructs one
new instance at a (one constructor run, a added to the heap) and stores a in the slot, and
the handle differs from p exactly when the allocator did not hand out p again; on a failed
allocation it returns null and leaves the torn-down state unchanged, constructing nothing. -/
theorem reacquire_after_teardown (s : Store) (p : Addr) (hp : s.slot = some p)
    (hl : p ∈ s.live) :
    ∃ s1, AddLockSingleInstance.deleteInstance s = some s1 ∧
      s1 = { slot := none, live := s.live.erase p, out := s.out ++ [dtorMsg] } ∧
      s1.dtorRuns = s.dtorRuns + 1 ∧ s1.ctorRuns = s.ctorRuns ∧
      (s.live = [p] → s1.live = []) ∧
      (∀ a : Addr,
        AddLockSingleInstance.GetInstance (some a) s1
          = (some a, { slot := some a, live := a :: s.live.erase p,
                       out := s.out ++ [dtorMsg] ++ [ctorMsg] }) ∧
        (AddLockSingleInstance.GetInstance (some a) s1).2.ctorRuns = s.ctorRuns + 1 ∧
        (AddLockSingleInstance.GetInstance (some a) s1).2.dtorRuns = s.dtorRuns + 1 ∧
        (s.live = [p] → (AddLockSingleInstance.GetInstance (some a) s1).2.live = [a]) ∧
        ((AddLockSingleInstance.GetInstance (some a) s1).1 ≠ some p ↔ a ≠ p)) ∧
      AddLockSingleInstance.GetInstance none s1 = (none, s1) ∧
      (AddLockSingleInstance.GetInstance none s1).2.ctorRuns = s.ctorRuns := by
  obtain ⟨slot, live, out⟩ := s
  simp only at hp hl
  subst hp
  refine ⟨{ slot := none, live := live.erase p, out := out ++ [dtorMsg] }, ?_, rfl, ?_, ?_,
    ?_, ?_, ?_, ?_⟩
  · simp [AddLockSingleInstance.deleteInstance, deleteObj, hl]
  · simp [Store.dtorRuns, List.count_append]
  · simp [Store.ctorRuns, List.count_append, ctorMsg_ne_dtorMsg]
  · intro h
    simp only at h
    simp [h]
  · intro a
    refine ⟨?_, ?_, ?_, ?_, ?_⟩
    · simp [AddLockSingleInstance.GetInstance, newNothrow]
    · simp [AddLockSingleInstance.GetInstance, newNothrow, Store.ctorRuns, List.count_append,
        ctorMsg_ne_dtorMsg]
    · simp [AddLockSingleInstance.GetInstance, newNothrow, Store.dtorRuns, List.count_append,
        Ne.symm ctorMsg_ne_dtorMsg]
    · intro h
      simp only at h
      simp [AddLockSingleInstance.GetInstance, newNothrow, h]
    · simp [AddLockSingleInstance.GetInstance, newNothrow]
  · simp [AddLockSingleInstance.GetInstance, newNothrow]
  · simp [AddLockSingleInstance.GetInstance, newNothrow, Store.ctorRuns, List.count_append,
      ctorMsg_ne_dtorMsg]

theorem reacquire_after_teardown_witness :
    (Store.mk (some 1) [1] [ctorMsg]).slot = some 1 ∧
    1 ∈ (Store.mk (some 1) [1] [ctorMsg]).live ∧
    ∃ s1, AddLockSingleInstance.deleteInstance (Store.mk (some 1) [1] [ctorMsg]) = some s1 ∧
      s1 = { slot := none, live := (Store.mk (some 1) [1] [ctorMsg]).live.erase 1,
             out := (Store.mk (some 1) [1] [ctorMsg]).out ++ [dtorMsg] } ∧
      s1.dtorRuns = (Store.mk (some 1) [1] [ctorMsg]).dtorRuns + 1 ∧
      s1.ctorRuns = (Store.mk (some 1) [1] [ctorMsg]).ctorRuns ∧
      ((Store.mk (some 1) [1] [ctorMsg]).live = [1] → s1.live = []) ∧
      (∀ a : Addr,
        AddLockSingleInstance.GetInstance (some a) s1
          = (some a, { slot := some a,
                       live := a :: (Store.mk (some 1) [1] [ctorMsg]).live.erase 1,
                       out := (Store.mk (some 1) [1] [ctorMsg]).out ++ [dtorMsg]
                         ++ [ctorMsg] }) ∧
        (AddLockSingleInstance.GetInstance (some a) s1).2.ctorRuns
          = (Store.mk (some 1) [1] [ctorMsg]).ctorRuns + 1 ∧
        (AddLockSingleInstance.GetInstance (some a) s1).2.dtorRuns
          = (Store.mk (some 1) [1] [ctorMsg]).dtorRuns + 1 ∧
        ((Store.mk (some 1) [1] [ctorMsg]).live = [1] →
          (AddLockSingleInstance.GetInstance (some a) s1).2.live = [a]) ∧
        ((AddLockSingleInstance.GetInstance (some a) s1).1 ≠ some 1 ↔ a ≠ 1)) ∧
      AddLockSingleInstance.GetInstance none s1 = (none, s1) ∧
      (AddLockSingleInstance.GetInstance none s1).2.ctorRuns
        = (Store.mk (some 1) [1] [ctorMsg]).ctorRuns :=
  ⟨rfl, by decide, reacquire_after_teardown (Store.mk (some 1) [1] [ctorMsg]) 1 rfl
    (by decide)⟩

theorem gets_of_slot_some (σ : Strategy) (rs : List (Option Addr)) (s : Store)
    (h : s.slot ≠ none) : σ.gets rs s = (List.replicate rs.length s.slot, s) := by
  induction rs with
  | nil => rfl
  | cons r rs ih =>
    have h1 : σ.GetInstance r s = (s.slot, s) := by
      cases σ <;>
        simp [Strategy.GetInstance, NoLockSingleInstance.GetInstance,
          AddLockSingleInstance.GetInstance, InitSingleInstance.GetInstance, h]
    simp [Strategy.gets, h1, ih, List.replicate_succ]

theorem gets_ctorRuns (σ : Strategy) (hσ : σ.isLazy = true) (rs : List (Option Addr)) :
    ∀ s : Store, s.slot = none →
      (σ.gets rs s).2.ctorRuns = s.ctorRuns + (if rs.any Option.isSome then 1 else 0) := by
  induction rs with
  | nil => intro s _; simp [Strategy.gets]
  | cons r rs ih =>
    intro s hs
    cases r with
    | none =>
      have h1 : σ.GetInstance none s = (none, s) := by
        obtain ⟨slot, live, out⟩ := s
        cases σ <;>
          simp_all [Strategy.GetInstance, NoLockSingleInstance.GetInstance,
            AddLockSingleInstance.GetInstance, newNothrow, Strategy.isLazy]
      simp [Strategy.gets, h1, ih s hs]
    | some a =>
      have h1 : (σ.GetInstance (some a) s).2.slot ≠ none ∧
          (σ.GetInstance (some a) s).2.ctorRuns = s.ctorRuns + 1 := by
        obtain ⟨slot, live, out⟩ := s
        cases σ <;>
          simp_all [Strategy.GetInstance, NoLockSingleInstance.GetInstance,
            AddLockSingleInstance.GetInstance, newNothrow, Strategy.isLazy, Store.ctorRuns,
            List.count_append]
      simp [Strategy.gets, gets_of_slot_some σ rs _ h1.1, h1.2]

/-- Two GetInstance() calls of a lazy strategy whose allocations both fail run the
constructor zero times, not once. -/
theorem construction_count_alloc_failure :
    (Strategy.noLock.gets [none, none] Store.empty).2.ctorRuns = 0 ∧
    (Strategy.addLock.gets [none, none] Store.empty).2.ctorRuns = 0 ∧
    Strategy.noLock.gets [none, none] Store.empty = ([none, none], Store.empty) ∧
    Strategy.addLock.gets [none, none] Store.empty = ([none, none], Store.empty) := by
  decide

/-- C5 (amended): for NoLockSingleInstance and AddLockSingleInstance, any number of
sequentially executed GetInstance() calls from the initial empty state with no
deleteInstance() in between execute the constructor exactly once in total if at least one
of the attempted allocations succeeds, and not at all if every one of them fails. -/
theorem construction_count (rs : List (Option Addr)) :
    (Strategy.noLock.gets rs (Strategy.noLock.initial none)).2.ctorRuns
      = (if rs.any Option.isSome then 1 else 0) ∧
    (Strategy.addLock.gets rs (Strategy.addLock.initial none)).2.ctorRuns
      = (if rs.any Option.isSome then 1 else 0) := by
  constructor
  · rw [gets_ctorRuns Strategy.noLock rfl rs _ rfl]
    simp [Strategy.initial, Store.empty, Store.ctorRuns]
  · rw [gets_ctorRuns Strategy.addLock rfl rs _ rfl]
    simp [Strategy.initial, Store.empty, Store.ctorRuns]

theorem static_calls_initialised (signal : Addr) (n : Nat) (s : StaticStore)
    (h : s.initialised = true) :
    StaticSingleInstance.calls signal n s = (List.replicate n signal, s) := by
  induction n with
  | zero => rfl
  | succ n ih =>
    simp [StaticSingleInstance.calls, StaticSingleInstance.GetInstance, h, ih,
      List.replicate_succ]

/-- C6: for StaticSingleInstance, n >= 1 successive calls of GetInstance() from the state
before the first call all return the same identity (the address of the local static), and
the constructor line is printed exactly once in total. -/
theorem static_single_construction (signal : Addr) (n : Nat) (hn : 1 ≤ n) :
    (StaticSingleInstance.calls signal n StaticStore.empty).1 = List.replicate n signal ∧
    (StaticSingleInstance.calls signal n StaticStore.empty).2.out.count ctorMsg = 1 := by
  obtain ⟨m, rfl⟩ : ∃ m, n = m + 1 := ⟨n - 1, by omega⟩
  simp [StaticSingleInstance.calls, StaticSingleInstance.GetInstance, StaticStore.empty,
    static_calls_initialised, List.replicate_succ]

theorem static_single_construction_witness :
    1 ≤ 5 ∧
    (StaticSingleInstance.calls 4096 5 StaticStore.empty).1 = List.replicate 5 4096 ∧
    (StaticSingleInstance.calls 4096 5 StaticStore.empty).2.out.count ctorMsg = 1 :=
  ⟨by decide, static_single_construction 4096 5 (by decide)⟩

theorem init_gets (rs : List (Option Addr)) (s : Store) :
    Strategy.init.gets rs s = (List.replicate rs.length s.slot, s) := by
  induction rs with
  | nil => rfl
  | cons r rs ih =>
    simp [Strategy.gets, Strategy.GetInstance, InitSingleInstance.GetInstance, ih,
      List.replicate_succ]

/-- C7: InitSingleInstance::GetInstance() returns the slot and leaves the whole state
(slot, heap, console) unchanged, so it never constructs; in every state whose slot does not
dangle, deleteInstance() succeeds and afterwards GetInstance() returns null, as does
every later GetInstance() call, with no reconstruction. -/
theorem eager_get_is_pure_read (s : Store) (h : s.wf = true) :
    (∀ t : Store, InitSingleInstance.GetInstance t = (t.slot, t)) ∧
    ∃ s1, InitSingleInstance.deleteInstance s = some s1 ∧
      InitSingleInstance.GetInstance s1 = (none, s1) ∧
      ∀ rs : List (Option Addr),
        Strategy.init.gets rs s1 = (List.replicate rs.length none, s1) := by
  refine ⟨fun t => rfl, ?_⟩
  obtain ⟨s1, h1, h2, _⟩ := del_of_wf Strategy.init s h
  refine ⟨s1, h1, ?_, ?_⟩
  · simp [InitSingleInstance.GetInstance, h2]
  · intro rs
    rw [init_gets, h2]

theorem eager_get_is_pure_read_witness :
    (InitSingleInstance.g_pSingleton (some 3)).wf = true ∧
    (∀ t : Store, InitSingleInstance.GetInstance t = (t.slot, t)) ∧
    ∃ s1, InitSingleInstance.deleteInstance (InitSingleInstance.g_pSingleton (some 3))
        = some s1 ∧
      InitSingleInstance.GetInstance s1 = (none, s1) ∧
      ∀ rs : List (Option Addr),
        Strategy.init.gets rs s1 = (List.replicate rs.length none, s1) :=
  ⟨by decide, eager_get_is_pure_read (InitSingleInstance.g_pSingleton (some 3)) (by decide)⟩

/-- C8: for NoLockSingleInstance and AddLockSingleInstance, when the slot is empty and the
allocation fails, GetInstance() returns null and leaves the state unchanged (no constructor
run, slot still empty), so that the next GetInstance() allocates again: it returns what the
allocator yields and stores it in the slot, running the constructor if that is an address;
and in any state GetInstance() returns null only if the slot was empty and the allocation
failed. -/
theorem lazy_alloc_failure_returns_null (σ : Strategy) (hσ : σ.isLazy = true) (s : Store)
    (hs : s.slot = none) :
    σ.GetInstance none s = (none, s) ∧
    (∀ r : Option Addr, σ.GetInstance r (σ.GetInstance none s).2
      = (r, { (newNothrow r s).2 with slot := r })) ∧
    (∀ a : Addr, (σ.GetInstance (some a) (σ.GetInstance none s).2).2.ctorRuns
      = s.ctorRuns + 1) ∧
    (∀ (r : Option Addr) (t : Store), (σ.GetInstance r t).1 = none →
      t.slot = none ∧ r = none) := by
  obtain ⟨slot, live, out⟩ := s
  simp only at hs
  subst hs
  cases σ with
  | init => simp [Strategy.isLazy] at hσ
  | noLock =>
    refine ⟨by simp [Strategy.GetInstance, NoLockSingleInstance.GetInstance, newNothrow],
      ?_, ?_, ?_⟩
    · intro r
      cases r <;> simp [Strategy.GetInstance, NoLockSingleInstance.GetInstance, newNothrow]
    · intro a
      simp [Strategy.GetInstance, NoLockSingleInstance.GetInstance, newNothrow,
        Store.ctorRuns, List.count_append]
    · intro r t
      obtain ⟨tslot, tlive, tout⟩ := t
      cases tslot <;> cases r <;>
        simp [Strategy.GetInstance, NoLockSingleInstance.GetInstance, newNothrow]
  | addLock =>
    refine ⟨by simp [Strategy.GetInstance, AddLockSingleInstance.GetInstance, newNothrow],
      ?_, ?_, ?_⟩
    · intro r
      cases r <;> simp [Strategy.GetInstance, AddLockSingleInstance.GetInstance, newNothrow]
    · intro a
      simp [Strategy.GetInstance, AddLockSingleInstance.GetInstance, newNothrow,
        Store.ctorRuns, List.count_append]
    · intro r t
      obtain ⟨tslot, tlive, tout⟩ := t
      cases tslot <;> cases r <;>
        simp [Strategy.GetInstance, AddLockSingleInstance.GetInstance, newNothrow]

theorem lazy_alloc_failure_returns_null_witness :
    Strategy.noLock.isLazy = true ∧ Store.empty.slot = none ∧
    Strategy.noLock.GetInstance none Store.empty = (none, Store.empty) ∧
    (∀ r : Option Addr,
      Strategy.noLock.GetInstance r (Strategy.noLock.GetInstance none Store.empty).2
        = (r, { (newNothrow r Store.empty).2 with slot := r })) ∧
    (∀ a : Addr,
      (Strategy.noLock.GetInstance (some a)
        (Strategy.noLock.GetInstance none Store.empty).2).2.ctorRuns
        = Store.empty.ctorRuns + 1) ∧
    (∀ (r : Option Addr) (t : Store), (Strategy.noLock.GetInstance r t).1 = none →
      t.slot = none ∧ r = none) :=
  ⟨rfl, rfl, lazy_alloc_failure_returns_null Strategy.noLock rfl Store.empty rfl⟩

end Singleton

/-! # The duck -/

namespace StrategyPattern

open Singleton (Addr)

theorem lastSet_mem (bs : List Addr) : ∀ b0 : Addr, lastSet b0 bs ∈ b0 :: bs := by
  induction bs with
  | nil => intro b0; simp [lastSet]
  | cons b bs ih => intro b0; exact List.mem_cons_of_mem _ (ih b)

theorem setAll_distinct_live (bs : List Addr) :
    ∀ (cur : Addr) (w : World), (cur :: bs).Nodup → (∀ p ∈ cur :: bs, (w.heap p).isSome) →
      ∃ w1, Duck.setAll (bs.map some) { uPtr := some cur } w
          = some ({ uPtr := some (lastSet cur bs) }, w1) ∧
        w1.out = w.out ∧ w1.heap (lastSet cur bs) = w.heap (lastSet cur bs) := by
  induction bs with
  | nil => intro cur w _ _; exact ⟨w, rfl, rfl, rfl⟩
  | cons b bs ih =>
    intro cur w hd hl
    have hcur : (w.heap cur).isSome := hl cur (by simp)
    have hd1 : (b :: bs).Nodup := (List.nodup_cons.mp hd).2
    have hnot : cur ∉ b :: bs := (List.nodup_cons.mp hd).1
    have hl1 : ∀ p ∈ b :: bs, (({ w with heap := Function.update w.heap cur none } : World).heap
        p).isSome := by
      intro p hp
      have hne : p ≠ cur := fun h => hnot (h ▸ hp)
      simpa [Function.update, hne] using hl p (List.mem_cons_of_mem _ hp)
    obtain ⟨w1, h1, h2, h3⟩ := ih b _ hd1 hl1
    have hne : lastSet b bs ≠ cur := fun h => hnot (h ▸ lastSet_mem bs b)
    refine ⟨w1, ?_, ?_, ?_⟩
    · simp [Duck.setAll, Duck.SetFlyBehavior, hcur, h1, lastSet]
    · simpa using h2
    · simpa [Function.update, hne, lastSet] using h3

/-- A duck that is handed the behaviour it already owns deletes it and keeps the dangling
pointer: the SetFlyBehavior call succeeds and the following PerformFly() is a fault, so the
fly() of the behaviour set last is not invoked. -/
theorem set_owned_behaviour_dangles :
    (Duck.setAll [some 1] (Duck.construct (some 1)) (World.empty.alloc 1 FlyWithWings)).isSome
      = true ∧
    (Duck.setAll [some 1] (Duck.construct (some 1)) (World.empty.alloc 1 FlyWithWings)).map
      (fun dw => (dw.1, (Duck.PerformFly dw.1 dw.2).map World.out))
      = some ({ uPtr := some 1 }, none) := by
  decide

/-- C10 (amended): for every Duck constructed with a pointer b0 and every finite sequence
of SetFlyBehavior calls with pointers b1..bk, where b0, b1..bk are pairwise distinct
addresses of live behaviour objects, every call succeeds without printing and PerformFly()
then invokes fly() of the object set last (bk, or b0 when k = 0) and of no other: the
console becomes what that fly() makes of it.  The demo main, whose three behaviours are
three distinct new objects, prints "I am flying !", "I cannot fly !",
"I am flying with a rocket !" in that order. -/
theorem last_set_behaviour_flies (w : World) (b0 : Addr) (bs : List Addr)
    (hd : (b0 :: bs).Nodup) (hl : ∀ p ∈ b0 :: bs, (w.heap p).isSome) :
    (∃ d w1 beh, Duck.setAll (bs.map some) (Duck.construct (some b0)) w = some (d, w1) ∧
      d.uPtr = some (lastSet b0 bs) ∧ w.heap (lastSet b0 bs) = some beh ∧
      w1.out = w.out ∧
      (Duck.PerformFly d w1).map World.out = some (beh.fly w.out)) ∧
    (∀ a1 a2 a3 : Addr, a1 ≠ a2 → a1 ≠ a3 → a2 ≠ a3 →
      main a1 a2 a3
        = some ["I am flying !", "I cannot fly !", "I am flying with a rocket !"]) := by
  constructor
  · obtain ⟨w1, h1, h2, h3⟩ := setAll_distinct_live bs b0 w hd hl
    have hmem : lastSet b0 bs ∈ b0 :: bs := lastSet_mem bs b0
    obtain ⟨beh, hbeh⟩ := Option.isSome_iff_exists.mp (hl _ hmem)
    refine ⟨_, w1, beh, h1, rfl, hbeh, h2, ?_⟩
    simp [Duck.PerformFly, h3, hbeh, h2]
  · intro a1 a2 a3 h12 h13 h23
    simp [main, World.alloc, World.empty, Duck.construct, Duck.PerformFly,
      Duck.SetFlyBehavior, Function.update, h12, h13, h23, Ne.symm h12, Ne.symm h13,
      Ne.symm h23, FlyWithWings, FlyNoWay, FlyWithRocket]

theorem last_set_behaviour_flies_witness :
    [1, 2, 3].Nodup ∧
    (∀ p ∈ [1, 2, 3], ((((World.empty.alloc 1 FlyWithWings).alloc 2 FlyNoWay).alloc 3
      FlyWithRocket).heap p).isSome) ∧
    (∃ d w1 beh, Duck.setAll ([2, 3].map some) (Duck.construct (some 1))
        (((World.empty.alloc 1 FlyWithWings).alloc 2 FlyNoWay).alloc 3 FlyWithRocket)
        = some (d, w1) ∧
      d.uPtr = some (lastSet 1 [2, 3]) ∧
      (((World.empty.alloc 1 FlyWithWings).alloc 2 FlyNoWay).alloc 3 FlyWithRocket).heap
        (lastSet 1 [2, 3]) = some beh ∧
      w1.out = (((World.empty.alloc 1 FlyWithWings).alloc 2 FlyNoWay).alloc 3
        FlyWithRocket).out ∧
      (Duck.PerformFly d w1).map World.out = some (beh.fly
        (((World.empty.alloc 1 FlyWithWings).alloc 2 FlyNoWay).alloc 3 FlyWithRocket).out)) ∧
    (∀ a1 a2 a3 : Addr, a1 ≠ a2 → a1 ≠ a3 → a2 ≠ a3 →
      main a1 a2 a3
        = some ["I am flying !", "I cannot fly !", "I am flying with a rocket !"]) :=
  have hd : [1, 2, 3].Nodup := by decide
  have hl : ∀ p ∈ [1, 2, 3], ((((World.empty.alloc 1 FlyWithWings).alloc 2 FlyNoWay).alloc 3
      FlyWithRocket).heap p).isSome := by decide
  ⟨hd, hl, last_set_behaviour_flies _ 1 [2, 3] hd hl⟩

end StrategyPattern

/-! # Interleavings of `AddLockSingleInstance::GetInstance` -/

namespace Singleton

theorem getElem?_set_some_iff {α : Type} (l : List α) (k j : Nat) (x y q : α)
    (hk : l[k]? = some x) :
    (l.set k y)[j]? = some q ↔ (j = k ∧ q = y) ∨ (j ≠ k ∧ l[j]? = some q) := by
  have hlt : k < l.length := by
    rcases List.getElem?_eq_some.mp hk with ⟨h, _⟩
    exact h
  by_cases hjk : j = k
  · subst hjk
    simp [List.getElem?_set_self hlt, eq_comm]
  · have : k ≠ j := fun h => hjk h.symm
    simp [List.getElem?_set_ne this, hjk]

theorem GetInv.advance {c c1 : Config GetPc} {k : Nat} {pc pc1 : GetPc} (h : GetInv c)
    (hk : c.threads[k]? = some pc) (ht : c1.threads = c.threads.set k pc1)
    (h1 : pc1.holds = true → pc.holds = true ∨ c.locked = false)
    (h2 : c1.locked = false → pc1.holds = false ∧ (pc.holds = true ∨ c.locked = false))
    (h3 : c1.locked = true → pc1.holds = true ∨ (c.locked = true ∧ pc.holds = false))
    (h4 : pc1.knows c1.store)
    (h5 : ∀ q : GetPc, q.knows c.store → (pc.holds = true → q.holds = false) →
      q.knows c1.store)
    (h6 : c1.store.slot ≠ none → c1.store.ctorRuns = 1)
    (h7 : c1.store.slot = none → (∀ p, pc1 ≠ .assign p) →
      (∀ p, pc ≠ .assign p) ∧ c1.store = c.store) :
    GetInv c1 := by
  have others : ∀ (j : Nat) (q : GetPc), j ≠ k → c.threads[j]? = some q →
      (pc.holds = true ∨ c.locked = false) → q.holds = false := by
    intro j q hj hq hor
    rcases hor with hp | hl
    · by_contra hq1
      exact hj (h.excl j k q pc hq hk (by simpa using hq1) hp)
    · exact h.free hl j q hq
  have hself : c1.threads[k]? = some pc1 := by
    rw [ht, getElem?_set_some_iff _ _ _ _ _ _ hk]; exact Or.inl ⟨rfl, rfl⟩
  refine ⟨?_, ?_, ?_, ?_, h6, ?_⟩
  · intro i j p q hi hj hp hq
    rw [ht, getElem?_set_some_iff _ _ _ _ _ _ hk] at hi hj
    rcases hi with ⟨rfl, rfl⟩ | ⟨hik, hi⟩ <;> rcases hj with ⟨hjk, rfl⟩ | ⟨hjk, hj⟩
    · exact hjk.symm
    · have := others j q hjk hj (h1 hp); simp [this] at hq
    · have := others i p hik hi (h1 hq); simp [this] at hp
    · exact h.excl i j p q hi hj hp hq
  · intro hl i p hi
    rw [ht, getElem?_set_some_iff _ _ _ _ _ _ hk] at hi
    rcases hi with ⟨_, rfl⟩ | ⟨hik, hi⟩
    · exact (h2 hl).1
    · exact others i p hik hi (h2 hl).2
  · intro hl
    rcases h3 hl with hp | ⟨hcl, hpc⟩
    · exact ⟨k, pc1, hself, hp⟩
    · obtain ⟨i, p, hi, hp⟩ := h.held hcl
      have hik : i ≠ k := by
        rintro rfl
        rw [hk] at hi
        cases hi
        simp [hpc] at hp
      refine ⟨i, p, ?_, hp⟩
      rw [ht, getElem?_set_some_iff _ _ _ _ _ _ hk]
      exact Or.inr ⟨hik, hi⟩
  · intro i p hi
    rw [ht, getElem?_set_some_iff _ _ _ _ _ _ hk] at hi
    rcases hi with ⟨_, rfl⟩ | ⟨hik, hi⟩
    · exact h4
    · exact h5 p (h.knows i p hi) (fun hp => others i p hik hi (Or.inl hp))
  · intro hs hno
    have hpc1 : ∀ p, pc1 ≠ .assign p := fun p hp => hno k p (by rw [hself, hp])
    obtain ⟨hpc, hst⟩ := h7 hs hpc1
    rw [hst] at hs ⊢
    refine h.zero hs ?_
    intro i p hi
    by_cases hik : i = k
    · subst hik
      rw [hk] at hi
      cases hi
      exact hpc p rfl
    · refine hno i p ?_
      rw [ht, getElem?_set_some_iff _ _ _ _ _ _ hk]
      exact Or.inr ⟨hik, hi⟩

theorem getStep_inv (k : Nat) (a : Addr) (c : Config GetPc) (h : GetInv c) :
    GetInv (AddLockSingleInstance.getStep k (some a) c) := by
  unfold AddLockSingleInstance.getStep
  split
  · exact h
  · next hk =>
    split
    · exact h.advance hk rfl (by simp [GetPc.holds]) (fun hl => ⟨rfl, Or.inr hl⟩)
        (fun hl => Or.inr ⟨hl, rfl⟩) trivial (fun q hq _ => hq) h.once
        (fun _ _ => ⟨by simp, rfl⟩)
    · next hs =>
      exact h.advance hk rfl (by simp [GetPc.holds]) (fun hl => ⟨rfl, Or.inr hl⟩)
        (fun hl => Or.inr ⟨hl, rfl⟩) hs (fun q hq _ => hq) h.once
        (fun _ _ => ⟨by simp, rfl⟩)
  · next hk =>
    split
    · exact h
    · next hl =>
      exact h.advance hk rfl (fun _ => Or.inr (by simpa using hl))
        (fun hl1 => by simp [Config.goto] at hl1) (fun _ => Or.inl rfl) trivial
        (fun q hq _ => hq) h.once (fun _ _ => ⟨by simp, rfl⟩)
  · next hk =>
    have hfree : c.locked = false → False := fun hl => by
      have := h.free hl k _ hk
      simp [GetPc.holds] at this
    split
    · next hs =>
      have hz : c.store.ctorRuns = 0 := by
        refine h.zero hs ?_
        intro i p hi
        have hik := h.excl i k _ _ hi hk rfl rfl
        subst hik
        rw [hk] at hi
        cases hi
      exact h.advance hk rfl (fun _ => Or.inl rfl) (fun hl => (hfree hl).elim)
        (fun _ => Or.inl rfl) ⟨hs, hz⟩ (fun q hq _ => hq) h.once
        (fun _ _ => ⟨by simp, rfl⟩)
    · next hs =>
      exact h.advance hk rfl (fun _ => Or.inl rfl) (fun hl => (hfree hl).elim)
        (fun _ => Or.inl rfl) hs (fun q hq _ => hq) h.once
        (fun _ _ => ⟨by simp, rfl⟩)
  · next hk =>
    have hfree : c.locked = false → False := fun hl => by
      have := h.free hl k _ hk
      simp [GetPc.holds] at this
    exact h.advance hk rfl (fun _ => Or.inl rfl) (fun hl => (hfree hl).elim)
      (fun _ => Or.inl rfl) (h.knows k .alloc hk) (fun q hq _ => hq) h.once
      (fun _ _ => ⟨by simp, rfl⟩)
  · next b hk =>
    have hfree : c.locked = false → False := fun hl => by
      have := h.free hl k _ hk
      simp [GetPc.holds] at this
    obtain ⟨hs, hz⟩ := h.knows k _ hk
    refine h.advance hk rfl (fun _ => Or.inl rfl) (fun hl => (hfree hl).elim)
      (fun _ => Or.inl rfl) ⟨hs, by simp, ?_⟩ ?_ (fun hne => (hne hs).elim)
      (fun _ hno => (hno (some b) rfl).elim)
    · simp only [Store.ctorRuns] at hz ⊢
      simp [Config.goto, List.count_append, hz]
    · intro q hq hh
      cases q <;> first | trivial | exact hq | (simp [GetPc.holds] at hh)
  · next p hk =>
    have hfree : c.locked = false → False := fun hl => by
      have := h.free hl k _ hk
      simp [GetPc.holds] at this
    obtain ⟨hs, hp, hone⟩ := h.knows k _ hk
    refine h.advance hk rfl (fun _ => Or.inl rfl) (fun hl => (hfree hl).elim)
      (fun _ => Or.inl rfl) hp ?_ (fun _ => hone) (fun hnone => (hp hnone).elim)
    intro q hq hh
    cases q <;>
      first
        | trivial
        | exact absurd hs hq
        | exact absurd hs hq.2
        | exact absurd (hh rfl) (by simp [GetPc.holds])
  · next hk =>
    exact h.advance hk rfl (by simp [GetPc.holds]) (fun _ => ⟨rfl, Or.inl rfl⟩)
      (fun hl => by simp [Config.goto] at hl) (h.knows k .release hk) (fun q hq _ => hq) h.once
      (fun _ _ => ⟨by simp, rfl⟩)
  · next hk =>
    exact h.advance hk rfl (by simp [GetPc.holds]) (fun hl => ⟨rfl, Or.inr hl⟩)
      (fun hl => Or.inr ⟨hl, rfl⟩) ⟨rfl, h.knows k .ret hk⟩ (fun q hq _ => hq) h.once
      (fun _ _ => ⟨by simp, rfl⟩)
  · exact h

theorem getInit_inv (n : Nat) : GetInv (AddLockSingleInstance.getInit n) := by
  have hpc : ∀ (i : Nat) (p : GetPc),
      (AddLockSingleInstance.getInit n).threads[i]? = some p → p = .test1 := by
    intro i p hi
    simp only [AddLockSingleInstance.getInit, List.getElem?_replicate] at hi
    split at hi
    · exact (Option.some.inj hi).symm
    · cases hi
  refine ⟨?_, ?_, ?_, ?_, ?_, ?_⟩
  · intro i j p q hi _ hp _
    rw [hpc i p hi] at hp
    simp [GetPc.holds] at hp
  · intro _ i p hi
    rw [hpc i p hi]
    rfl
  · intro hl
    simp [AddLockSingleInstance.getInit] at hl
  · intro i p hi
    rw [hpc i p hi]
    trivial
  · intro hs
    simp [AddLockSingleInstance.getInit, Store.empty] at hs
  · intro _ _
    simp [AddLockSingleInstance.getInit, Store.empty, Store.ctorRuns]

theorem getRun_inv (sched : List (Nat × Option Addr)) (hok : ∀ e ∈ sched, e.2 ≠ none) :
    ∀ c : Config GetPc, GetInv c → GetInv (AddLockSingleInstance.getRun sched c) := by
  induction sched with
  | nil => intro c h; exact h
  | cons e es ih =>
    intro c h
    obtain ⟨k, r⟩ := e
    have hr : r ≠ none := hok (k, r) (List.mem_cons_self _ _)
    obtain ⟨a, rfl⟩ := Option.ne_none_iff_exists'.mp hr
    exact ih (fun e he => hok e (List.mem_cons_of_mem _ he)) _ (getStep_inv k a c h)

theorem getRun_append (s1 s2 : List (Nat × Option Addr)) :
    ∀ c : Config GetPc, AddLockSingleInstance.getRun (s1 ++ s2) c
      = AddLockSingleInstance.getRun s2 (AddLockSingleInstance.getRun s1 c) := by
  induction s1 with
  | nil => intro c; rfl
  | cons e es ih => intro c; exact ih _

theorem getStep_length (k : Nat) (r : Option Addr) (c : Config GetPc) :
    (AddLockSingleInstance.getStep k r c).threads.length = c.threads.length := by
  unfold AddLockSingleInstance.getStep
  repeat' split
  all_goals simp [Config.goto]

theorem getRun_length (sched : List (Nat × Option Addr)) :
    ∀ c : Config GetPc,
      (AddLockSingleInstance.getRun sched c).threads.length = c.threads.length := by
  induction sched with
  | nil => intro c; rfl
  | cons e es ih =>
    intro c
    exact (ih _).trans (getStep_length e.1 e.2 c)

theorem sum_map_set {α : Type} (f : α → Nat) (l : List α) :
    ∀ (k : Nat) (x y : α), l[k]? = some x →
      ((l.set k y).map f).sum + f x = (l.map f).sum + f y := by
  induction l with
  | nil => intro k x y h; simp at h
  | cons z zs ih =>
    intro k x y h
    cases k with
    | zero =>
      simp only [List.getElem?_cons_zero, Option.some.injEq] at h
      subst h
      simp only [List.set_cons_zero, List.map_cons, List.sum_cons]
      omega
    | succ k =>
      simp only [List.getElem?_cons_succ] at h
      have := ih k x y h
      simp only [List.set_cons_succ, List.map_cons, List.sum_cons]
      omega

theorem exists_pos_of_sum_pos {α : Type} (f : α → Nat) (l : List α) (h : 0 < (l.map f).sum) :
    ∃ (i : Nat) (x : α), l[i]? = some x ∧ 0 < f x := by
  induction l with
  | nil => simp at h
  | cons z zs ih =>
    by_cases hz : 0 < f z
    · exact ⟨0, z, by simp, hz⟩
    · have h1 : 0 < (zs.map f).sum := by
        simp at h hz
        omega
      obtain ⟨i, x, hi, hx⟩ := ih h1
      exact ⟨i + 1, x, by simpa using hi, hx⟩

theorem forall_zero_of_sum_zero {α : Type} (f : α → Nat) (l : List α)
    (h : (l.map f).sum = 0) : ∀ (i : Nat) (x : α), l[i]? = some x → f x = 0 := by
  intro i x hi
  by_contra hx
  have hmem : f x ≤ (l.map f).sum :=
    List.single_le_sum (fun _ _ => Nat.zero_le _) _
      (List.mem_map_of_mem f (List.getElem?_mem hi))
  omega

theorem getLeft_goto (c c1 : Config GetPc) (k : Nat) (p q : GetPc)
    (hk : c.threads[k]? = some p) (ht : c1.threads = c.threads.set k q)
    (hlt : q.left < p.left) : getLeft c1 < getLeft c := by
  have := sum_map_set GetPc.left c.threads k p q hk
  simp only [getLeft, ht]
  omega

theorem getStep_left (k : Nat) (a : Addr) (c : Config GetPc) (p : GetPc)
    (hk : c.threads[k]? = some p) (hacq : p = .acquire → c.locked = false)
    (hp : 0 < p.left) :
    getLeft (AddLockSingleInstance.getStep k (some a) c) < getLeft c := by
  unfold AddLockSingleInstance.getStep
  cases p with
  | test1 =>
    simp only [hk]
    split
    · exact getLeft_goto c _ k _ _ hk rfl (by simp [GetPc.left])
    · exact getLeft_goto c _ k _ _ hk rfl (by simp [GetPc.left])
  | acquire =>
    simp only [hk, hacq rfl]
    exact getLeft_goto c _ k _ _ hk rfl (by simp [GetPc.left])
  | test2 =>
    simp only [hk]
    split
    · exact getLeft_goto c _ k _ _ hk rfl (by simp [GetPc.left])
    · exact getLeft_goto c _ k _ _ hk rfl (by simp [GetPc.left])
  | alloc =>
    simp only [hk]
    exact getLeft_goto c _ k _ _ hk rfl (by simp [GetPc.left])
  | construct b =>
    simp only [hk]
    exact getLeft_goto c _ k _ _ hk rfl (by simp [GetPc.left])
  | assign q =>
    simp only [hk]
    exact getLeft_goto c _ k _ _ hk rfl (by simp [GetPc.left])
  | release =>
    simp only [hk]
    exact getLeft_goto c _ k _ _ hk rfl (by simp [GetPc.left])
  | ret =>
    simp only [hk]
    exact getLeft_goto c _ k _ _ hk rfl (by simp [GetPc.left])
  | done r => simp [GetPc.left] at hp

theorem getStep_progress (c : Config GetPc) (h : GetInv c) (hpos : 0 < getLeft c) :
    ∃ k : Nat, getLeft (AddLockSingleInstance.getStep k (some 1) c) < getLeft c := by
  cases hl : c.locked with
  | true =>
    obtain ⟨i, p, hi, hp⟩ := h.held hl
    refine ⟨i, getStep_left i 1 c p hi ?_ ?_⟩
    · rintro rfl
      simp [GetPc.holds] at hp
    · cases p <;> simp [GetPc.holds] at hp <;> simp [GetPc.left]
  | false =>
    obtain ⟨i, p, hi, hp⟩ := exists_pos_of_sum_pos GetPc.left c.threads hpos
    exact ⟨i, getStep_left i 1 c p hi (fun _ => hl) hp⟩

theorem getRun_complete (m : Nat) :
    ∀ c : Config GetPc, GetInv c → getLeft c ≤ m →
      ∃ ext : List (Nat × Option Addr), (∀ e ∈ ext, e.2 ≠ none) ∧
        getLeft (AddLockSingleInstance.getRun ext c) = 0 := by
  induction m with
  | zero =>
    intro c _ hm
    exact ⟨[], by simp, by simpa [AddLockSingleInstance.getRun] using hm⟩
  | succ m ih =>
    intro c h hm
    by_cases hpos : 0 < getLeft c
    · obtain ⟨k, hk⟩ := getStep_progress c h hpos
      obtain ⟨ext, hext, hdone⟩ := ih _ (getStep_inv k 1 c h) (by omega)
      refine ⟨(k, some 1) :: ext, ?_, hdone⟩
      intro e he
      rcases List.mem_cons.mp he with rfl | he
      · simp
      · exact hext e he
    · exact ⟨[], by simp, by simpa [AddLockSingleInstance.getRun] using hpos⟩

theorem done_of_left_zero (p : GetPc) (h : p.left = 0) : ∃ r, p = .done r := by
  cases p <;> simp [GetPc.left] at h
  exact ⟨_, rfl⟩

/-- C1: for n >= 1 threads calling AddLockSingleInstance::GetInstance() concurrently from
the initial empty state, with no deleteInstance() and every allocation succeeding, at
every point of every interleaving the constructor has run at most once and every handle
received so far is the non-null content of the slot; once every caller has returned the
constructor has run exactly once and all callers hold the same identity; and every
interleaving can be continued until every caller has returned. -/
theorem double_checked_lock_constructs_once (n : Nat) (hn : 1 ≤ n)
    (sched : List (Nat × Option Addr)) (hok : ∀ e ∈ sched, e.2 ≠ none) :
    (AddLockSingleInstance.getRun sched (AddLockSingleInstance.getInit n)).store.ctorRuns ≤ 1 ∧
    (∀ (i : Nat) (r : Option Addr),
      (AddLockSingleInstance.getRun sched (AddLockSingleInstance.getInit n)).threads[i]?
        = some (.done r) →
      r ≠ none ∧
      r = (AddLockSingleInstance.getRun sched (AddLockSingleInstance.getInit n)).store.slot) ∧
    ((∀ i : Nat, i < n → ∃ r : Option Addr,
        (AddLockSingleInstance.getRun sched (AddLockSingleInstance.getInit n)).threads[i]?
          = some (.done r)) →
      (AddLockSingleInstance.getRun sched (AddLockSingleInstance.getInit n)).store.ctorRuns = 1 ∧
      ∃ a : Addr, ∀ i : Nat, i < n →
        (AddLockSingleInstance.getRun sched (AddLockSingleInstance.getInit n)).threads[i]?
          = some (.done (some a))) ∧
    (∃ ext : List (Nat × Option Addr), (∀ e ∈ ext, e.2 ≠ none) ∧
      ∀ i : Nat, i < n → ∃ r : Option Addr,
        (AddLockSingleInstance.getRun (sched ++ ext)
          (AddLockSingleInstance.getInit n)).threads[i]? = some (.done r)) := by
  have hinv := getRun_inv sched hok _ (getInit_inv n)
  generalize hc : AddLockSingleInstance.getRun sched (AddLockSingleInstance.getInit n) = c
    at hinv ⊢
  have hlen : c.threads.length = n := by
    rw [← hc, getRun_length]
    simp [AddLockSingleInstance.getInit]
  have hdone : ∀ (i : Nat) (r : Option Addr), c.threads[i]? = some (.done r) →
      r ≠ none ∧ r = c.store.slot := by
    intro i r hi
    obtain ⟨h1, h2⟩ := hinv.knows i _ hi
    exact ⟨h1 ▸ h2, h1⟩
  refine ⟨?_, hdone, ?_, ?_⟩
  · by_cases hs : c.store.slot = none
    · by_cases hno : ∀ (i : Nat) (p : Option Addr), c.threads[i]? ≠ some (.assign p)
      · rw [hinv.zero hs hno]; omega
      · push_neg at hno
        obtain ⟨i, p, hi⟩ := hno
        rw [(hinv.knows i _ hi).2.2]
    · rw [hinv.once hs]
  · intro hall
    obtain ⟨r0, h0⟩ := hall 0 (by omega)
    obtain ⟨hr0, hr0s⟩ := hdone 0 r0 h0
    obtain ⟨a, rfl⟩ := Option.ne_none_iff_exists'.mp hr0
    refine ⟨hinv.once (by rw [← hr0s]; simp), a, ?_⟩
    intro i hi
    obtain ⟨r, hr⟩ := hall i hi
    rw [hr, (hdone i r hr).2, ← hr0s]
  · obtain ⟨ext, hext, hzero⟩ := getRun_complete (getLeft c) c hinv (le_refl _)
    refine ⟨ext, hext, ?_⟩
    intro i hi
    rw [getRun_append, hc]
    have hlen1 : (AddLockSingleInstance.getRun ext c).threads.length = n := by
      rw [getRun_length, hlen]
    have hlt : i < (AddLockSingleInstance.getRun ext c).threads.length := by omega
    obtain ⟨r, hr⟩ := done_of_left_zero _
      (forall_zero_of_sum_zero GetPc.left _ hzero i _ (List.getElem?_eq_getElem hlt))
    exact ⟨r, by rw [List.getElem?_eq_getElem hlt, hr]⟩

theorem double_checked_lock_constructs_once_witness :
    1 ≤ 2 ∧ (∀ e ∈ demoSchedule, e.2 ≠ none) ∧
    (AddLockSingleInstance.getRun demoSchedule (AddLockSingleInstance.getInit 2)).threads
      = [.done (some 5), .done (some 5)] ∧
    (AddLockSingleInstance.getRun demoSchedule
      (AddLockSingleInstance.getInit 2)).store.ctorRuns ≤ 1 ∧
    (∀ (i : Nat) (r : Option Addr),
      (AddLockSingleInstance.getRun demoSchedule (AddLockSingleInstance.getInit 2)).threads[i]?
        = some (.done r) →
      r ≠ none ∧
      r = (AddLockSingleInstance.getRun demoSchedule
        (AddLockSingleInstance.getInit 2)).store.slot) ∧
    ((∀ i : Nat, i < 2 → ∃ r : Option Addr,
        (AddLockSingleInstance.getRun demoSchedule
          (AddLockSingleInstance.getInit 2)).threads[i]? = some (.done r)) →
      (AddLockSingleInstance.getRun demoSchedule
        (AddLockSingleInstance.getInit 2)).store.ctorRuns = 1 ∧
      ∃ a : Addr, ∀ i : Nat, i < 2 →
        (AddLockSingleInstance.getRun demoSchedule
          (AddLockSingleInstance.getInit 2)).threads[i]? = some (.done (some a))) ∧
    (∃ ext : List (Nat × Option Addr), (∀ e ∈ ext, e.2 ≠ none) ∧
      ∀ i : Nat, i < 2 → ∃ r : Option Addr,
        (AddLockSingleInstance.getRun (demoSchedule ++ ext)
          (AddLockSingleInstance.getInit 2)).threads[i]? = some (.done r)) :=
  ⟨by decide, by decide, by decide,
    double_checked_lock_constructs_once 2 (by decide) demoSchedule (by decide)⟩

/-! # Interleavings of `deleteInstance` -/

theorem DelPc.knows_of_not_holds (d0 : Nat) (s : Store) (q : DelPc) (h : q.holds = false) :
    q.knows d0 s := by
  cases q <;> trivial

theorem DelInv.proceed {d0 : Nat} {c c1 : Config DelPc} {k : Nat} {pc pc1 : DelPc}
    (h : DelInv d0 c) (hk : c.threads[k]? = some pc) (ht : c1.threads = c.threads.set k pc1)
    (hor : pc.holds = true ∨ c.locked = false)
    (h2 : c1.locked = false → pc1.holds = false)
    (h4 : pc1.knows d0 c1.store)
    (h5 : c1.store.dtorRuns = d0 ∨ c1.store.dtorRuns = d0 + 1)
    (h6 : c1.store.dtorRuns = d0 → c1.store.wf = true)
    (h7 : c1.store.dtorRuns = d0 + 1 →
      c1.store.slot = none ∨ (∃ a, pc1 = .free a) ∨ pc1 = .reset) :
    DelInv d0 c1 := by
  have others : ∀ (j : Nat) (q : DelPc), j ≠ k → c.threads[j]? = some q →
      q.holds = false := by
    intro j q hj hq
    rcases hor with hp | hl
    · by_contra hq1
      exact hj (h.excl j k q pc hq hk (by simpa using hq1) hp)
    · exact h.free hl j q hq
  have hself : c1.threads[k]? = some pc1 := by
    rw [ht, getElem?_set_some_iff _ _ _ _ _ _ hk]; exact Or.inl ⟨rfl, rfl⟩
  refine ⟨?_, ?_, ?_, h5, h6, ?_⟩
  · intro i j p q hi hj hp hq
    rw [ht, getElem?_set_some_iff _ _ _ _ _ _ hk] at hi hj
    rcases hi with ⟨rfl, rfl⟩ | ⟨hik, hi⟩ <;> rcases hj with ⟨hjk, rfl⟩ | ⟨hjk, hj⟩
    · exact hjk.symm
    · have := others j q hjk hj; simp [this] at hq
    · have := others i p hik hi; simp [this] at hp
    · have := others i p hik hi; simp [this] at hp
  · intro hl i p hi
    rw [ht, getElem?_set_some_iff _ _ _ _ _ _ hk] at hi
    rcases hi with ⟨_, rfl⟩ | ⟨hik, hi⟩
    · exact h2 hl
    · exact others i p hik hi
  · intro i p hi
    rw [ht, getElem?_set_some_iff _ _ _ _ _ _ hk] at hi
    rcases hi with ⟨_, rfl⟩ | ⟨hik, hi⟩
    · exact h4
    · exact DelPc.knows_of_not_holds d0 _ p (others i p hik hi)
  · intro hd
    rcases h7 hd with hs | hp
    · exact Or.inl hs
    · exact Or.inr ⟨k, pc1, hself, hp⟩

theorem delStep_inv (d0 k : Nat) (c : Config DelPc) (h : DelInv d0 c) :
    ∃ c1, AddLockSingleInstance.delStep k c = some c1 ∧ DelInv d0 c1 := by
  have holder : ∀ pc : DelPc, c.threads[k]? = some pc → pc.holds = true →
      ∀ (i : Nat) (q : DelPc), c.threads[i]? = some q → q.holds = true → q = pc := by
    intro pc hk hp i q hi hq
    have hik := h.excl i k q pc hi hk hq hp
    subst hik
    rw [hk] at hi
    exact (Option.some.inj hi).symm
  have unspent : ∀ pc : DelPc, c.threads[k]? = some pc → pc.holds = true →
      (∀ a, pc ≠ .free a) → pc ≠ .reset → c.store.slot ≠ none → c.store.dtorRuns = d0 := by
    intro pc hk hp hfree hreset hs
    rcases h.range with hd | hd
    · exact hd
    · rcases h.spent hd with hnone | ⟨i, q, hi, hq⟩
      · exact (hs hnone).elim
      · have hqh : q.holds = true := by
          rcases hq with ⟨a, rfl⟩ | rfl <;> rfl
        have := holder pc hk hp i q hi hqh
        subst this
        rcases hq with ⟨a, rfl⟩ | rfl
        · exact (hfree a rfl).elim
        · exact (hreset rfl).elim
  unfold AddLockSingleInstance.delStep
  split
  · exact ⟨c, rfl, h⟩
  · next hk =>
    split
    · exact ⟨c, rfl, h⟩
    · next hl =>
      exact ⟨_, rfl, h.proceed hk rfl (Or.inr (by simpa using hl))
        (fun hl1 => by simp [Config.goto] at hl1) trivial h.range h.sound
        (fun hd => (h.spent hd).elim Or.inl (fun ⟨i, q, hi, hq⟩ => by
          have hqh : q.holds = true := by
            rcases hq with ⟨a, rfl⟩ | rfl <;> rfl
          have := h.free (by simpa using hl) i q hi
          simp [this] at hqh))⟩
  · next hk =>
    have hlock : c.locked = false → False := fun hl => by
      have := h.free hl k _ hk
      simp [DelPc.holds] at this
    split
    · next hs =>
      exact ⟨_, rfl, h.proceed hk rfl (Or.inl rfl) (fun hl => (hlock hl).elim) trivial h.range
        h.sound (fun _ => Or.inl hs)⟩
    · next hs =>
      have hd := unspent _ hk rfl (by simp) (by simp) hs
      refine ⟨_, rfl, h.proceed hk rfl (Or.inl rfl) (fun hl => (hlock hl).elim)
        ⟨hs, h.sound hd, hd⟩ h.range h.sound ?_⟩
      intro hd1
      simp only [Config.goto] at hd1
      omega
  · next hk =>
    have hlock : c.locked = false → False := fun hl => by
      have := h.free hl k _ hk
      simp [DelPc.holds] at this
    obtain ⟨hs, hwf, hd⟩ := h.knows k .destroy hk
    split
    · next hnone => exact (hs hnone).elim
    · next p hp =>
      have hlive : p ∈ c.store.live := by
        simpa [Store.wf, hp] using hwf
      have hd1 : (c.store.out ++ [dtorMsg]).count dtorMsg = d0 + 1 := by
        simp only [Store.dtorRuns] at hd
        simp [List.count_append, hd]
      refine ⟨_, rfl, h.proceed hk rfl (Or.inl rfl) (fun hl => (hlock hl).elim)
        ⟨hp, hlive, hd1⟩ (Or.inr hd1) ?_ (fun _ => Or.inr (Or.inl ⟨p, rfl⟩))⟩
      intro hd2
      have : (c.store.out ++ [dtorMsg]).count dtorMsg = d0 := hd2
      omega
  · next p hk =>
    have hlock : c.locked = false → False := fun hl => by
      have := h.free hl k _ hk
      simp [DelPc.holds] at this
    obtain ⟨hs, hlive, hd⟩ := h.knows k (.free p) hk
    rw [if_pos hlive]
    refine ⟨_, rfl, h.proceed hk rfl (Or.inl rfl) (fun hl => (hlock hl).elim)
      hd (Or.inr hd) ?_ (fun _ => Or.inr (Or.inr rfl))⟩
    intro hd2
    have : c.store.dtorRuns = d0 := hd2
    omega
  · next hk =>
    have hlock : c.locked = false → False := fun hl => by
      have := h.free hl k _ hk
      simp [DelPc.holds] at this
    have hd : c.store.dtorRuns = d0 + 1 := h.knows k .reset hk
    refine ⟨_, rfl, h.proceed hk rfl (Or.inl rfl) (fun hl => (hlock hl).elim)
      trivial (Or.inr hd) ?_ (fun _ => Or.inl rfl)⟩
    intro hd2
    have : c.store.dtorRuns = d0 := hd2
    omega
  · next hk =>
    refine ⟨_, rfl, h.proceed hk rfl (Or.inl rfl) (fun _ => rfl) trivial h.range h.sound ?_⟩
    intro hd
    rcases h.spent hd with hs | ⟨i, q, hi, hq⟩
    · exact Or.inl hs
    · have hqh : q.holds = true := by
        rcases hq with ⟨a, rfl⟩ | rfl <;> rfl
      have := holder _ hk rfl i q hi hqh
      subst this
      rcases hq with ⟨a, hq⟩ | hq <;> cases hq
  · exact ⟨c, rfl, h⟩

theorem delInit_inv (s : Store) (n : Nat) (hwf : s.wf = true) :
    DelInv s.dtorRuns (AddLockSingleInstance.delInit s n) := by
  have hpc : ∀ (i : Nat) (p : DelPc),
      (AddLockSingleInstance.delInit s n).threads[i]? = some p → p = .acquire := by
    intro i p hi
    simp only [AddLockSingleInstance.delInit, List.getElem?_replicate] at hi
    split at hi
    · exact (Option.some.inj hi).symm
    · cases hi
  refine ⟨?_, ?_, ?_, Or.inl rfl, fun _ => hwf, ?_⟩
  · intro i j p q hi _ hp _
    rw [hpc i p hi] at hp
    simp [DelPc.holds] at hp
  · intro _ i p hi
    rw [hpc i p hi]
    rfl
  · intro i p hi
    rw [hpc i p hi]
    trivial
  · intro hd
    have : s.dtorRuns = s.dtorRuns + 1 := hd
    omega

theorem delRun_inv (d0 : Nat) (sched : List Nat) :
    ∀ c : Config DelPc, DelInv d0 c →
      ∃ c1, runSchedule AddLockSingleInstance.delStep sched c = some c1 ∧ DelInv d0 c1 := by
  induction sched with
  | nil => intro c h; exact ⟨c, rfl, h⟩
  | cons k ks ih =>
    intro c h
    obtain ⟨c1, h1, h2⟩ := delStep_inv d0 k c h
    obtain ⟨c2, h3, h4⟩ := ih c1 h2
    exact ⟨c2, by simp [runSchedule, h1, h3], h4⟩

theorem init_delStep_locked (k : Nat) (c c1 : Config DelPc)
    (h : InitSingleInstance.delStep k c = some c1) : c1.locked = c.locked := by
  unfold InitSingleInstance.delStep at h
  repeat' split at h
  all_goals first | (cases h; rfl) | cases h

/-- Every interleaving of any number of concurrent AddLockSingleInstance::deleteInstance()
calls, from a state whose slot does not dangle, runs without a fault and runs the
destructor at most once: the mutex serializes test, delete and reset. -/
theorem addLock_teardown_serialized (s : Store) (hwf : s.wf = true) (n : Nat)
    (sched : List Nat) :
    ∃ c, runSchedule AddLockSingleInstance.delStep sched (AddLockSingleInstance.delInit s n)
        = some c ∧ c.store.dtorRuns ≤ s.dtorRuns + 1 := by
  obtain ⟨c, h1, h2⟩ := delRun_inv s.dtorRuns sched _ (delInit_inv s n hwf)
  refine ⟨c, h1, ?_⟩
  rcases h2.range with h | h <;> omega

/-- C9: InitSingleInstance::deleteInstance() is not serialized.  With the instance live at
address 1 and two threads inside the call, the schedule 0, 1, 0, 1 lets both threads pass the
test `if (g_pSingleton)` before either resets the slot: both run the destructor on the same
object (two destructor lines, both threads about to release address 1), and continuing
0, 1 makes the second release a fault (double delete).  The same start under
AddLockSingleInstance::deleteInstance(), with thread 1 trying to enter at every turn, ends
with both calls returned, one destructor run and the slot empty; and the two
InitSingleInstance calls run one after the other also destroy once. -/
theorem eager_teardown_races :
    (runSchedule InitSingleInstance.delStep raceSchedule
      (InitSingleInstance.delInit (InitSingleInstance.g_pSingleton (some 1)) 2)).map
        (fun c => (c.store.dtorRuns, c.store.slot, c.threads))
      = some (2, some 1, [.free 1, .free 1]) ∧
    (runSchedule InitSingleInstance.delStep (raceSchedule ++ [0])
      (InitSingleInstance.delInit (InitSingleInstance.g_pSingleton (some 1)) 2)).map
        (fun c => (c.store.dtorRuns, c.store.live, c.threads))
      = some (2, [], [.reset, .free 1]) ∧
    (runSchedule InitSingleInstance.delStep (raceSchedule ++ [0, 1])
      (InitSingleInstance.delInit (InitSingleInstance.g_pSingleton (some 1)) 2)).isNone
        = true ∧
    (runSchedule AddLockSingleInstance.delStep lockedSchedule
      (AddLockSingleInstance.delInit (InitSingleInstance.g_pSingleton (some 1)) 2)).map
        (fun c => (c.store.dtorRuns, c.store.slot, c.store.live, c.threads))
      = some (1, none, [], [.done, .done]) ∧
    (runSchedule InitSingleInstance.delStep [0, 0, 0, 0, 1]
      (InitSingleInstance.delInit (InitSingleInstance.g_pSingleton (some 1)) 2)).map
        (fun c => (c.store.dtorRuns, c.store.slot, c.store.live, c.threads))
      = some (1, none, [], [.done, .done]) := by
  decide

/-! # One thread alone: the statements add up to the calls -/

theorem getRun_alone (r : Option Addr) (s : Store) :
    AddLockSingleInstance.getRun (List.replicate 8 (0, r))
        { store := s, locked := false, threads := [.test1] }
      = { store := (AddLockSingleInstance.GetInstance r s).2, locked := false,
          threads := [.done (AddLockSingleInstance.GetInstance r s).1] } := by
  obtain ⟨slot, live, out⟩ := s
  cases slot <;> cases r <;>
    simp [AddLockSingleInstance.getRun, AddLockSingleInstance.getStep, Config.goto,
      AddLockSingleInstance.GetInstance, newNothrow, List.replicate]

theorem addLock_delRun_alone (s : Store) :
    runSchedule AddLockSingleInstance.delStep (List.replicate 6 0)
        { store := s, locked := false, threads := [.acquire] }
      = (AddLockSingleInstance.deleteInstance s).map fun s1 =>
          { store := s1, locked := false, threads := [.done] } := by
  obtain ⟨slot, live, out⟩ := s
  cases slot with
  | none => rfl
  | some p =>
    by_cases hp : p ∈ live
    · simp [runSchedule, AddLockSingleInstance.delStep, AddLockSingleInstance.deleteInstance,
        deleteObj, Config.goto, hp, List.replicate]
    · simp [runSchedule, AddLockSingleInstance.delStep, AddLockSingleInstance.deleteInstance,
        deleteObj, Config.goto, hp, List.replicate]

theorem init_delRun_alone (s : Store) :
    runSchedule InitSingleInstance.delStep (List.replicate 4 0)
        { store := s, locked := false, threads := [.test] }
      = (InitSingleInstance.deleteInstance s).map fun s1 =>
          { store := s1, locked := false, threads := [.done] } := by
  obtain ⟨slot, live, out⟩ := s
  cases slot with
  | none => rfl
  | some p =>
    by_cases hp : p ∈ live
    · simp [runSchedule, InitSingleInstance.delStep, InitSingleInstance.deleteInstance,
        deleteObj, Config.goto, hp, List.replicate]
    · simp [runSchedule, InitSingleInstance.delStep, InitSingleInstance.deleteInstance,
        deleteObj, Config.goto, hp, List.replicate]

theorem run_wf (σ : Strategy) (r0 : Option Addr) (calls : List Call) :
    ∃ s, σ.run calls (σ.initial r0) = some s ∧ s.wf = true := by
  obtain ⟨s, h1, h2⟩ := Store.tight_run σ calls _ (Store.tight_initial σ r0)
  refine ⟨s, h1, ?_⟩
  obtain ⟨slot, live, out⟩ := s
  cases slot <;> simp_all [Store.tight, Store.wf]

end Singleton
